import Mathlib

/-!
ExpiringTemporalUnorderedMap.

A shallow embedding of `expiring_temporal_unordered_map.hpp` / `.tpp`.

* `std::unordered_map<Key, Element>` is a list of `(key, element)` pairs in iteration order;
  the container keeps at most one pair per key (`UniqueKeys`), and the operations below are
  shown to preserve that.
* `Clock::time_point` and `std::chrono` durations are signed tick counts (`Int`); the
  `steady_clock` tick is one nanosecond, `time_limit_` is a count of whole seconds.
  Tick arithmetic is exact: the readings of a running `steady_clock` and their differences
  stay far inside the 64-bit range, so no subtraction wraps.
* Every `Clock::now()` call of the source is an explicit argument, in call order.
* `insert` and `emplace` below are the statements of the two member bodies (`tpp:14-16`,
  `tpp:24-26`). The members as declared end in `return result;` with a `result` whose
  iterator belongs to `unordered_map<Key, Element>` while the declared return type names the
  iterator of `unordered_map<Key, T>`; `insert_call` and `emplace_call` are the members with
  that conversion, and they yield no result.
-/

namespace ExpiringTemporalUnorderedMap

/-- Tick count of `Clock::time_point` (and of a difference of two time points). -/
abbrev TimePoint := Int

/-- Ticks of `steady_clock` in one second: the factor `std::chrono` multiplies a
`std::chrono::seconds` count by when it is compared with a clock duration. -/
def ticksPerSecond : Int := 1000000000

/-- The private `struct Element { T value; TimePoint timestamp; }`. -/
structure Element (T : Type) where
  value : T
  timestamp : TimePoint
deriving DecidableEq, Repr

end ExpiringTemporalUnorderedMap

/-- The class `ExpiringTemporalUnorderedMap<Key, T>`: its two data members. -/
structure ExpiringTemporalUnorderedMap (Key T : Type) where
  elements_ : List (Key × ExpiringTemporalUnorderedMap.Element T)
  time_limit_ : Int
deriving DecidableEq, Repr

namespace ExpiringTemporalUnorderedMap

variable {Key T : Type}

/-! ## The `std::unordered_map` members the class calls -/

/-- The `elements_.find(key)` call: the element stored under `key`, `none` for `end()`. -/
def umap_find [DecidableEq Key] (key : Key) : List (Key × Element T) → Option (Element T)
  | [] => none
  | it :: rest => if it.1 = key then some it.2 else umap_find key rest

/-- The `elements_.emplace(key, element)` call: adds the pair only when no pair with an equal
key is stored; the flag tells whether it was added. -/
def umap_emplace [DecidableEq Key] (key : Key) (element : Element T)
    (elements : List (Key × Element T)) : List (Key × Element T) × Bool :=
  match umap_find key elements with
  | some _ => (elements, false)
  | none => (elements ++ [(key, element)], true)

/-- The `elements_.erase(key)` call: removes the pair stored under `key`, if any, and returns
the number of pairs removed. -/
def umap_erase [DecidableEq Key] (key : Key) :
    List (Key × Element T) → List (Key × Element T) × Nat
  | [] => ([], 0)
  | it :: rest =>
    if it.1 = key then (rest, 1)
    else ((it :: (umap_erase key rest).1), (umap_erase key rest).2)

/-! ## The class -/

/-- The constructor `ExpiringTemporalUnorderedMap(int time_limit_seconds)`. -/
def mk_map (time_limit_seconds : Int) : ExpiringTemporalUnorderedMap Key T :=
  { elements_ := [], time_limit_ := time_limit_seconds }

/-- The time limit in clock ticks. -/
def time_limit_ticks (m : ExpiringTemporalUnorderedMap Key T) : Int :=
  m.time_limit_ * ticksPerSecond

/-- The `for` loop of `remove_expired_elements`: walks the pairs with the one reading `now`,
erasing a pair when `(now - it->second.timestamp) > time_limit_` and stepping over it
otherwise. -/
def remove_expired_loop (now : TimePoint) (time_limit_ : Int) :
    List (Key × Element T) → List (Key × Element T)
  | [] => []
  | it :: rest =>
    if now - it.2.timestamp > time_limit_ * ticksPerSecond then
      remove_expired_loop now time_limit_ rest
    else
      it :: remove_expired_loop now time_limit_ rest

/-- The private `remove_expired_elements()`; `now` is its `Clock::now()` reading. -/
def remove_expired_elements (m : ExpiringTemporalUnorderedMap Key T) (now : TimePoint) :
    ExpiringTemporalUnorderedMap Key T :=
  { m with elements_ := remove_expired_loop now m.time_limit_ m.elements_ }

/-- The statements of the body of `insert(key, value)` ahead of its `return` (`tpp:14-16`):
`now` is the reading stored in the new element, `now_sweep` the reading taken by the sweep
that follows. Gives the map they leave and the `bool` of `result`. The member itself, with
its `return result;`, is `insert_call`. -/
def insert [DecidableEq Key] (m : ExpiringTemporalUnorderedMap Key T) (key : Key) (value : T)
    (now now_sweep : TimePoint) : ExpiringTemporalUnorderedMap Key T × Bool :=
  let result := umap_emplace key { value := value, timestamp := now } m.elements_
  (remove_expired_elements { m with elements_ := result.1 } now_sweep, result.2)

/-- The statements of the body of `emplace(args...)` ahead of its `return` (`tpp:24-26`) when
`args` is a key alone: the element handed to `elements_.emplace` is `Element(T{}, now)`.
The member itself, with every form of `args` and its `return result;`, is `emplace_call`. -/
def emplace [DecidableEq Key] [Inhabited T] (m : ExpiringTemporalUnorderedMap Key T)
    (key : Key) (now now_sweep : TimePoint) : ExpiringTemporalUnorderedMap Key T × Bool :=
  let result := umap_emplace key { value := (default : T), timestamp := now } m.elements_
  (remove_expired_elements { m with elements_ := result.1 } now_sweep, result.2)

/-- The member `erase(key)`: returns the map afterwards and `erased_count`. -/
def erase [DecidableEq Key] (m : ExpiringTemporalUnorderedMap Key T) (key : Key)
    (now_sweep : TimePoint) : ExpiringTemporalUnorderedMap Key T × Nat :=
  let erased := umap_erase key m.elements_
  (remove_expired_elements { m with elements_ := erased.1 } now_sweep, erased.2)

/-- The member `clear_expired_elements()`. -/
def clear_expired_elements (m : ExpiringTemporalUnorderedMap Key T) (now : TimePoint) :
    ExpiringTemporalUnorderedMap Key T :=
  remove_expired_elements m now

/-- The member `operator[](key)`: `now_sweep` is the reading of the sweep it starts with,
`now` the reading stored when the key has to be added. Returns the value the returned
reference designates and the map afterwards. -/
def operator_index [DecidableEq Key] [Inhabited T] (m : ExpiringTemporalUnorderedMap Key T)
    (key : Key) (now_sweep now : TimePoint) : T × ExpiringTemporalUnorderedMap Key T :=
  let swept := remove_expired_elements m now_sweep
  match umap_find key swept.elements_ with
  | some it => (it.value, swept)
  | none =>
    ((default : T),
      { swept with
        elements_ :=
          (umap_emplace key { value := (default : T), timestamp := now } swept.elements_).1 })

/-- An assignment `ref = value` through the `T&` that `operator[](key)` returned: only the
`value` member of the element stored under `key` changes. -/
def assign_value [DecidableEq Key] (key : Key) (value : T) :
    List (Key × Element T) → List (Key × Element T)
  | [] => []
  | it :: rest =>
    if it.1 = key then (it.1, { it.2 with value := value }) :: rest
    else it :: assign_value key value rest

/-- The statement `m[key] = value` issued right after `operator[](key)` returned. -/
def assign_through_reference [DecidableEq Key] (m : ExpiringTemporalUnorderedMap Key T)
    (key : Key) (value : T) : ExpiringTemporalUnorderedMap Key T :=
  { m with elements_ := assign_value key value m.elements_ }

/-! ## The members `insert` and `emplace` as declared -/

/-- The two instances of `std::unordered_map` the class names: `unordered_map<Key, T>` in the
declared return types of `insert` and `emplace` (`hpp:31`, `hpp:39`) and
`unordered_map<Key, Element>`, the type of `elements_` (`hpp:82`). -/
inductive MapInstance where
  | key_to_T
  | key_to_Element
deriving DecidableEq, Repr

/-- The type `std::pair<M::iterator, bool>` for an instance `M` of `std::unordered_map`. -/
structure IteratorBoolPair where
  container : MapInstance
deriving DecidableEq, Repr

/-- The return type `insert` and `emplace` are declared with. -/
def declared_return_type : IteratorBoolPair := { container := MapInstance.key_to_T }

/-- The type of `result`, what `elements_.emplace(...)` returns. -/
def emplace_result_type : IteratorBoolPair := { container := MapInstance.key_to_Element }

/-- Whether `return result;` is well-formed for a `result` of type `source` in a function
declared to return `target`: a pair converts only when its iterator does, and iterators of
two different instances of `std::unordered_map` do not convert into one another. -/
def return_well_formed (source target : IteratorBoolPair) : Bool :=
  decide (source.container = target.container)

/-- The member `insert(key, value)` as declared: the statements of `insert` followed by
`return result;` into the declared return type. `none` when that is ill-formed, so that no
call of the member exists. -/
def insert_call [DecidableEq Key] (m : ExpiringTemporalUnorderedMap Key T) (key : Key)
    (value : T) (now now_sweep : TimePoint) :
    Option (ExpiringTemporalUnorderedMap Key T × Bool) :=
  if return_well_formed emplace_result_type declared_return_type then
    some (insert m key value now now_sweep)
  else
    none

/-- The member `emplace(args...)` as declared, called with a key followed by `value_args`.
The pair `elements_.emplace` builds is `pair<const Key, Element>(args..., Element(T{}, now))`,
which has a constructor only when `args` is the key alone; then the statements of `emplace`
are followed by `return result;` into the declared return type. `none` when the call is
ill-formed. -/
def emplace_call [DecidableEq Key] [Inhabited T] (m : ExpiringTemporalUnorderedMap Key T)
    (key : Key) (value_args : List T) (now now_sweep : TimePoint) :
    Option (ExpiringTemporalUnorderedMap Key T × Bool) :=
  match value_args with
  | [] =>
    if return_well_formed emplace_result_type declared_return_type then
      some (emplace m key now now_sweep)
    else
      none
  | _ :: _ => none

/-! ## Observations used by the statements -/

/-- The element the map physically stores under `key`, swept or not. -/
def lookup [DecidableEq Key] (m : ExpiringTemporalUnorderedMap Key T) (key : Key) :
    Option (Element T) :=
  umap_find key m.elements_

/-- The container invariant of `std::unordered_map`: no two pairs share a key. -/
def UniqueKeys (m : ExpiringTemporalUnorderedMap Key T) : Prop :=
  (m.elements_.map Prod.fst).Nodup

instance [DecidableEq Key] (m : ExpiringTemporalUnorderedMap Key T) : Decidable (UniqueKeys m) :=
  inferInstanceAs (Decidable (m.elements_.map Prod.fst).Nodup)

/-- An element is alive at reading `now` when its age does not exceed the time limit. -/
def Alive (m : ExpiringTemporalUnorderedMap Key T) (now : TimePoint) (e : Element T) : Prop :=
  now - e.timestamp ≤ time_limit_ticks m

instance (m : ExpiringTemporalUnorderedMap Key T) (now : TimePoint) (e : Element T) :
    Decidable (Alive m now e) :=
  inferInstanceAs (Decidable (now - e.timestamp ≤ time_limit_ticks m))

/-- The operations that run a sweep. -/
inductive Operation (Key T : Type) where
  | insert (key : Key) (value : T)
  | emplace (key : Key)
  | erase (key : Key)
  | clear_expired_elements
  | operator_index (key : Key)

/-- The map after an operation all of whose clock readings are `t`. -/
def Operation.run [DecidableEq Key] [Inhabited T] (op : Operation Key T)
    (m : ExpiringTemporalUnorderedMap Key T) (t : TimePoint) :
    ExpiringTemporalUnorderedMap Key T :=
  match op with
  | .insert key value => (ExpiringTemporalUnorderedMap.insert m key value t t).1
  | .emplace key => (ExpiringTemporalUnorderedMap.emplace m key t t).1
  | .erase key => (ExpiringTemporalUnorderedMap.erase m key t).1
  | .clear_expired_elements => ExpiringTemporalUnorderedMap.clear_expired_elements m t
  | .operator_index key => (ExpiringTemporalUnorderedMap.operator_index m key t t).2

/-- The scenario of the specification: time limit 2 s, keys are strings, values integers. -/
def scenario_start : ExpiringTemporalUnorderedMap String Int := mk_map 2

/-- The map `{a -> (1, 0 s)}`, as the statements of `insert("a", 1)` at 0 s leave it. -/
def scenario_after_a : ExpiringTemporalUnorderedMap String Int × Bool :=
  insert scenario_start "a" 1 0 0

/-- The map `{a -> (1, 0 s), b -> (2, 1 s)}`, as the statements of `insert("b", 2)` at 1 s
leave it. -/
def scenario_after_b : ExpiringTemporalUnorderedMap String Int × Bool :=
  insert scenario_after_a.1 "b" 2 1000000000 1000000000

/-- The scenario after `clear_expired_elements()` at 2.5 s. -/
def scenario_after_clear : ExpiringTemporalUnorderedMap String Int :=
  clear_expired_elements scenario_after_b.1 2500000000

/-- A map holding one element of key `"j"` stamped 0, with a time limit of 1 s. -/
def stale_other_key : ExpiringTemporalUnorderedMap String Int :=
  { elements_ := [("j", { value := 7, timestamp := 0 })], time_limit_ := 1 }

/-- A map holding one element of key `"k"` stamped 0, with a time limit of 1 s. -/
def stale_entry_map : ExpiringTemporalUnorderedMap String Int :=
  { elements_ := [("k", { value := 5, timestamp := 0 })], time_limit_ := 1 }

/-- An empty map constructed with a time limit of -1 s. -/
def negative_limit_start : ExpiringTemporalUnorderedMap String Int := mk_map (-1)

/-- A map with a time limit of 0 s holding `"x"` stamped 5 s and `"y"` stamped 7 s. -/
def zero_limit_map : ExpiringTemporalUnorderedMap String Int :=
  { elements_ := [("x", { value := 1, timestamp := 5000000000 }),
                  ("y", { value := 2, timestamp := 7000000000 })],
    time_limit_ := 0 }

/-- The map `{a -> (1, 0 s)}` built by `m["a"] = 1` at 0 s on the empty scenario map. -/
def scenario_a_via_index : ExpiringTemporalUnorderedMap String Int :=
  assign_through_reference (operator_index scenario_start "a" 0 0).2 "a" 1

/-- The map `{a -> (1, 0 s), b -> (2, 1 s)}` built by `m["a"] = 1` at 0 s and `m["b"] = 2`
at 1 s. -/
def scenario_b_via_index : ExpiringTemporalUnorderedMap String Int :=
  assign_through_reference
    (operator_index scenario_a_via_index "b" 1000000000 1000000000).2 "b" 2

/-- The map with a time limit of -1 s after `m["a"]` at 1 s: it holds `a -> (0, 1 s)`. -/
def negative_limit_after_index : ExpiringTemporalUnorderedMap String Int :=
  (operator_index negative_limit_start "a" 1000000000 1000000000).2

/-! ## Lemmas on the container members -/

theorem umap_find_eq_none_iff [DecidableEq Key] (key : Key) (l : List (Key × Element T)) :
    umap_find key l = none ↔ key ∉ l.map Prod.fst := by
  induction l with
  | nil => simp [umap_find]
  | cons it rest ih =>
    by_cases h : it.1 = key
    · simp [umap_find, h]
    · have h2 : ¬ key = it.1 := fun e => h e.symm
      simp [umap_find, h, h2, ih]

theorem umap_find_mem [DecidableEq Key] (key : Key) (e : Element T)
    (l : List (Key × Element T)) (h : umap_find key l = some e) : (key, e) ∈ l := by
  induction l with
  | nil => simp [umap_find] at h
  | cons it rest ih =>
    by_cases hk : it.1 = key
    · simp [umap_find, hk] at h
      subst hk
      subst h
      simp
    · simp [umap_find, hk] at h
      exact List.mem_cons_of_mem _ (ih h)

theorem umap_find_append_self [DecidableEq Key] (key : Key) (e : Element T)
    (l : List (Key × Element T)) (h : umap_find key l = none) :
    umap_find key (l ++ [(key, e)]) = some e := by
  induction l with
  | nil => simp [umap_find]
  | cons it rest ih =>
    by_cases hk : it.1 = key
    · simp [umap_find, hk] at h
    · simp [umap_find, hk] at h
      simp [umap_find, hk, ih h]

theorem umap_find_append_other [DecidableEq Key] (key other : Key) (e : Element T)
    (l : List (Key × Element T)) (h : key ≠ other) :
    umap_find other (l ++ [(key, e)]) = umap_find other l := by
  induction l with
  | nil => simp [umap_find, h]
  | cons it rest ih =>
    by_cases hk : it.1 = other
    · simp [umap_find, hk]
    · simp [umap_find, hk, ih]

/-! ## Lemmas on the sweep -/

theorem remove_expired_loop_eq_filter (now : TimePoint) (limit : Int)
    (l : List (Key × Element T)) :
    remove_expired_loop now limit l
      = l.filter (fun it => decide (now - it.2.timestamp ≤ limit * ticksPerSecond)) := by
  induction l with
  | nil => rfl
  | cons it rest ih =>
    by_cases h : now - it.2.timestamp > limit * ticksPerSecond
    · have h2 : ¬ (now - it.2.timestamp ≤ limit * ticksPerSecond) := not_le.mpr h
      rw [remove_expired_loop, if_pos h, ih, List.filter_cons_of_neg]
      simp only [decide_eq_true_eq]
      exact h2
    · have h2 : now - it.2.timestamp ≤ limit * ticksPerSecond := not_lt.mp h
      rw [remove_expired_loop, if_neg h, ih, List.filter_cons_of_pos]
      simp only [decide_eq_true_eq]
      exact h2

theorem mem_remove_expired_loop (now : TimePoint) (limit : Int)
    (l : List (Key × Element T)) (it : Key × Element T) :
    it ∈ remove_expired_loop now limit l
      ↔ it ∈ l ∧ now - it.2.timestamp ≤ limit * ticksPerSecond := by
  rw [remove_expired_loop_eq_filter]
  simp [List.mem_filter]

theorem remove_expired_loop_sublist (now : TimePoint) (limit : Int)
    (l : List (Key × Element T)) :
    (remove_expired_loop now limit l).Sublist l := by
  rw [remove_expired_loop_eq_filter]
  exact List.filter_sublist l

theorem remove_expired_loop_of_all_alive (now : TimePoint) (limit : Int)
    (l : List (Key × Element T))
    (h : ∀ it ∈ l, now - it.2.timestamp ≤ limit * ticksPerSecond) :
    remove_expired_loop now limit l = l := by
  rw [remove_expired_loop_eq_filter]
  exact List.filter_eq_self.mpr (fun it hit => by simpa using h it hit)

theorem umap_find_remove_expired_none [DecidableEq Key] (now : TimePoint) (limit : Int)
    (key : Key) (l : List (Key × Element T)) (h : umap_find key l = none) :
    umap_find key (remove_expired_loop now limit l) = none := by
  rw [umap_find_eq_none_iff] at h ⊢
  intro hmem
  exact h (((remove_expired_loop_sublist now limit l).map Prod.fst).subset hmem)

theorem umap_find_remove_expired_alive [DecidableEq Key] (now : TimePoint) (limit : Int)
    (key : Key) (e : Element T) (l : List (Key × Element T))
    (h : umap_find key l = some e) (halive : now - e.timestamp ≤ limit * ticksPerSecond) :
    umap_find key (remove_expired_loop now limit l) = some e := by
  induction l with
  | nil => simp [umap_find] at h
  | cons it rest ih =>
    by_cases hk : it.1 = key
    · simp [umap_find, hk] at h
      have h3 : ¬ (now - it.2.timestamp > limit * ticksPerSecond) := by
        rw [h]; exact not_lt.mpr halive
      rw [remove_expired_loop, if_neg h3, umap_find, if_pos hk, h]
    · simp [umap_find, hk] at h
      by_cases hx : now - it.2.timestamp > limit * ticksPerSecond
      · simp [remove_expired_loop, hx, ih h]
      · simp [remove_expired_loop, hx, umap_find, hk, ih h]

theorem umap_find_remove_expired_stale [DecidableEq Key] (now : TimePoint) (limit : Int)
    (key : Key) (e : Element T) (l : List (Key × Element T))
    (hnodup : (l.map Prod.fst).Nodup)
    (h : umap_find key l = some e) (hstale : ¬ now - e.timestamp ≤ limit * ticksPerSecond) :
    umap_find key (remove_expired_loop now limit l) = none := by
  induction l with
  | nil => simp [umap_find] at h
  | cons it rest ih =>
    simp only [List.map_cons, List.nodup_cons] at hnodup
    by_cases hk : it.1 = key
    · simp [umap_find, hk] at h
      have h3 : now - it.2.timestamp > limit * ticksPerSecond := by
        rw [h]; exact not_le.mp hstale
      simp only [remove_expired_loop, h3, if_true]
      apply umap_find_remove_expired_none
      rw [umap_find_eq_none_iff, ← hk]
      exact hnodup.1
    · simp [umap_find, hk] at h
      by_cases hx : now - it.2.timestamp > limit * ticksPerSecond
      · simp [remove_expired_loop, hx, ih hnodup.2 h]
      · simp [remove_expired_loop, hx, umap_find, hk, ih hnodup.2 h]

theorem ticksPerSecond_pos : (0 : Int) < ticksPerSecond := by decide

theorem time_limit_ticks_nonneg (m : ExpiringTemporalUnorderedMap Key T)
    (h : 0 ≤ m.time_limit_) : 0 ≤ time_limit_ticks m :=
  Int.mul_nonneg h (le_of_lt ticksPerSecond_pos)

theorem remove_expired_elements_alive (m : ExpiringTemporalUnorderedMap Key T)
    (now : TimePoint) (it : Key × Element T)
    (h : it ∈ (remove_expired_elements m now).elements_) :
    now - it.2.timestamp ≤ time_limit_ticks m :=
  ((mem_remove_expired_loop now m.time_limit_ m.elements_ it).mp h).2

/-! ## Lemmas on the members -/

theorem insert_of_present [DecidableEq Key] (m : ExpiringTemporalUnorderedMap Key T)
    (key : Key) (value : T) (now now_sweep : TimePoint) (e : Element T)
    (h : lookup m key = some e) :
    insert m key value now now_sweep = (remove_expired_elements m now_sweep, false) := by
  unfold lookup at h
  simp only [insert, umap_emplace, h]

theorem lookup_remove_expired_alive [DecidableEq Key] (m : ExpiringTemporalUnorderedMap Key T)
    (key : Key) (now : TimePoint) (e : Element T) (h : lookup m key = some e)
    (halive : now - e.timestamp ≤ time_limit_ticks m) :
    lookup (remove_expired_elements m now) key = some e :=
  umap_find_remove_expired_alive now m.time_limit_ key e m.elements_ h halive

theorem umap_erase_of_absent [DecidableEq Key] (key : Key) (l : List (Key × Element T))
    (h : umap_find key l = none) : umap_erase key l = (l, 0) := by
  induction l with
  | nil => rfl
  | cons it rest ih =>
    by_cases hk : it.1 = key
    · simp [umap_find, hk] at h
    · simp [umap_find, hk] at h
      simp [umap_erase, hk, ih h]

theorem umap_erase_of_present [DecidableEq Key] (key : Key) (e : Element T)
    (l : List (Key × Element T)) (h : umap_find key l = some e) :
    (umap_erase key l).2 = 1 := by
  induction l with
  | nil => simp [umap_find] at h
  | cons it rest ih =>
    by_cases hk : it.1 = key
    · simp [umap_erase, hk]
    · simp [umap_find, hk] at h
      simp [umap_erase, hk, ih h]

theorem umap_erase_sublist [DecidableEq Key] (key : Key) (l : List (Key × Element T)) :
    (umap_erase key l).1.Sublist l := by
  induction l with
  | nil => simp [umap_erase]
  | cons it rest ih =>
    by_cases hk : it.1 = key
    · simp [umap_erase, hk]
    · simp only [umap_erase, hk, if_false]
      exact ih.cons₂ it

theorem umap_find_erase_self [DecidableEq Key] (key : Key) (l : List (Key × Element T))
    (hnodup : (l.map Prod.fst).Nodup) : umap_find key (umap_erase key l).1 = none := by
  induction l with
  | nil => simp [umap_erase, umap_find]
  | cons it rest ih =>
    simp only [List.map_cons, List.nodup_cons] at hnodup
    by_cases hk : it.1 = key
    · simp only [umap_erase, hk, if_true]
      rw [umap_find_eq_none_iff, ← hk]
      exact hnodup.1
    · simp only [umap_erase, hk, if_false, umap_find]
      exact ih hnodup.2

theorem umap_find_assign_value [DecidableEq Key] (key : Key) (value : T) (e : Element T)
    (l : List (Key × Element T)) (h : umap_find key l = some e) :
    umap_find key (assign_value key value l) = some { e with value := value } := by
  induction l with
  | nil => simp [umap_find] at h
  | cons it rest ih =>
    by_cases hk : it.1 = key
    · simp [umap_find, hk] at h
      simp [assign_value, umap_find, hk, h]
    · simp [umap_find, hk] at h
      simp [assign_value, umap_find, hk, ih h]

theorem assign_value_keys [DecidableEq Key] (key : Key) (value : T)
    (l : List (Key × Element T)) :
    (assign_value key value l).map Prod.fst = l.map Prod.fst := by
  induction l with
  | nil => rfl
  | cons it rest ih =>
    by_cases hk : it.1 = key
    · simp [assign_value, hk]
    · simp [assign_value, hk, ih]

theorem lookup_remove_expired_none [DecidableEq Key] (m : ExpiringTemporalUnorderedMap Key T)
    (key : Key) (now : TimePoint) (h : lookup m key = none) :
    lookup (remove_expired_elements m now) key = none :=
  umap_find_remove_expired_none now m.time_limit_ key m.elements_ h

theorem lookup_remove_expired_stale [DecidableEq Key] (m : ExpiringTemporalUnorderedMap Key T)
    (key : Key) (now : TimePoint) (e : Element T) (huniq : UniqueKeys m)
    (h : lookup m key = some e) (hstale : ¬ now - e.timestamp ≤ time_limit_ticks m) :
    lookup (remove_expired_elements m now) key = none :=
  umap_find_remove_expired_stale now m.time_limit_ key e m.elements_ huniq h hstale

theorem operator_index_of_alive [DecidableEq Key] [Inhabited T]
    (m : ExpiringTemporalUnorderedMap Key T) (key : Key) (now_sweep now : TimePoint)
    (e : Element T) (h : lookup m key = some e)
    (halive : now_sweep - e.timestamp ≤ time_limit_ticks m) :
    operator_index m key now_sweep now = (e.value, remove_expired_elements m now_sweep) := by
  have hfind := lookup_remove_expired_alive m key now_sweep e h halive
  unfold lookup at hfind
  simp only [operator_index, hfind]

theorem operator_index_of_swept_absent [DecidableEq Key] [Inhabited T]
    (m : ExpiringTemporalUnorderedMap Key T) (key : Key) (now_sweep now : TimePoint)
    (h : lookup (remove_expired_elements m now_sweep) key = none) :
    operator_index m key now_sweep now
      = ((default : T),
          { remove_expired_elements m now_sweep with
            elements_ := (remove_expired_elements m now_sweep).elements_
              ++ [(key, { value := (default : T), timestamp := now })] }) := by
  unfold lookup at h
  simp only [operator_index, umap_emplace, h]

theorem remove_expired_elements_of_all_alive (m : ExpiringTemporalUnorderedMap Key T)
    (now : TimePoint) (h : ∀ it ∈ m.elements_, Alive m now it.2) :
    remove_expired_elements m now = m := by
  show ({ m with elements_ := remove_expired_loop now m.time_limit_ m.elements_ } :
    ExpiringTemporalUnorderedMap Key T) = m
  rw [remove_expired_loop_of_all_alive now m.time_limit_ m.elements_ h]

/-! ## Lemmas on keys other than the argument -/

theorem umap_find_emplace_of_present [DecidableEq Key] (key other : Key)
    (element e : Element T) (l : List (Key × Element T)) (h : umap_find other l = some e) :
    umap_find other (umap_emplace key element l).1 = some e := by
  unfold umap_emplace
  cases hfind : umap_find key l with
  | some found => exact h
  | none =>
    have hne : key ≠ other := by
      intro heq
      rw [heq, h] at hfind
      exact Option.noConfusion hfind
    show umap_find other (l ++ [(key, element)]) = some e
    rw [umap_find_append_other key other element l hne]
    exact h

theorem umap_find_erase_other [DecidableEq Key] (key other : Key)
    (l : List (Key × Element T)) (h : key ≠ other) :
    umap_find other (umap_erase key l).1 = umap_find other l := by
  induction l with
  | nil => rfl
  | cons it rest ih =>
    by_cases hk : it.1 = key
    · have ho : ¬ it.1 = other := fun heq => h (hk.symm.trans heq)
      simp only [umap_erase, if_pos hk, umap_find, if_neg ho]
    · by_cases ho : it.1 = other
      · simp only [umap_erase, if_neg hk, umap_find, if_pos ho]
      · simp only [umap_erase, if_neg hk, umap_find, if_neg ho]
        exact ih

theorem umap_find_sweep_append_other [DecidableEq Key] (now : TimePoint) (limit : Int)
    (key other : Key) (element : Element T) (l : List (Key × Element T)) (h : key ≠ other) :
    umap_find other (remove_expired_loop now limit (l ++ [(key, element)]))
      = umap_find other (remove_expired_loop now limit l) := by
  induction l with
  | nil =>
    by_cases hx : now - element.timestamp > limit * ticksPerSecond
    · simp only [List.nil_append, remove_expired_loop, if_pos hx]
    · simp only [List.nil_append, remove_expired_loop, if_neg hx, umap_find, if_neg h]
  | cons it rest ih =>
    by_cases hx : now - it.2.timestamp > limit * ticksPerSecond
    · simp only [List.cons_append, remove_expired_loop, if_pos hx]
      exact ih
    · by_cases ho : it.1 = other
      · simp only [List.cons_append, remove_expired_loop, if_neg hx, umap_find, if_pos ho]
      · simp only [List.cons_append, remove_expired_loop, if_neg hx, umap_find, if_neg ho]
        exact ih

theorem umap_find_sweep_erase_other [DecidableEq Key] (now : TimePoint) (limit : Int)
    (key other : Key) (l : List (Key × Element T)) (h : key ≠ other) :
    umap_find other (remove_expired_loop now limit (umap_erase key l).1)
      = umap_find other (remove_expired_loop now limit l) := by
  induction l with
  | nil => rfl
  | cons it rest ih =>
    by_cases hk : it.1 = key
    · have ho : ¬ it.1 = other := fun heq => h (hk.symm.trans heq)
      by_cases hx : now - it.2.timestamp > limit * ticksPerSecond
      · simp only [umap_erase, if_pos hk, remove_expired_loop, if_pos hx]
      · simp only [umap_erase, if_pos hk, remove_expired_loop, if_neg hx, umap_find, if_neg ho]
    · by_cases hx : now - it.2.timestamp > limit * ticksPerSecond
      · simp only [umap_erase, if_neg hk, remove_expired_loop, if_pos hx]
        exact ih
      · by_cases ho : it.1 = other
        · simp only [umap_erase, if_neg hk, remove_expired_loop, if_neg hx, umap_find,
            if_pos ho]
        · simp only [umap_erase, if_neg hk, remove_expired_loop, if_neg hx, umap_find,
            if_neg ho]
          exact ih

theorem umap_find_sweep_emplace_other [DecidableEq Key] (now : TimePoint) (limit : Int)
    (key other : Key) (element : Element T) (l : List (Key × Element T)) (h : key ≠ other) :
    umap_find other (remove_expired_loop now limit (umap_emplace key element l).1)
      = umap_find other (remove_expired_loop now limit l) := by
  unfold umap_emplace
  cases hfind : umap_find key l with
  | some found => rfl
  | none => exact umap_find_sweep_append_other now limit key other element l h

/-! ## Lemmas on a negative time limit -/

theorem remove_expired_loop_of_negative_limit (now : TimePoint) (limit : Int)
    (l : List (Key × Element T)) (hneg : limit < 0)
    (hpast : ∀ it ∈ l, it.2.timestamp ≤ now) :
    remove_expired_loop now limit l = [] := by
  induction l with
  | nil => rfl
  | cons it rest ih =>
    have hlim : limit * ticksPerSecond < 0 := mul_neg_of_neg_of_pos hneg ticksPerSecond_pos
    have hit : it.2.timestamp ≤ now := hpast it (List.mem_cons_self it rest)
    have hx : now - it.2.timestamp > limit * ticksPerSecond := by linarith
    rw [remove_expired_loop, if_pos hx]
    exact ih (fun x hxmem => hpast x (List.mem_cons_of_mem it hxmem))

/-! ## Lemmas on successive sweeps -/

theorem remove_expired_loop_sweep_twice (t1 t2 : TimePoint) (limit : Int)
    (l : List (Key × Element T)) (h : t1 ≤ t2) :
    remove_expired_loop t2 limit (remove_expired_loop t1 limit l)
      = remove_expired_loop t2 limit l := by
  induction l with
  | nil => rfl
  | cons it rest ih =>
    by_cases h1 : t1 - it.2.timestamp > limit * ticksPerSecond
    · have h2 : t2 - it.2.timestamp > limit * ticksPerSecond := by linarith
      rw [remove_expired_loop, if_pos h1, ih]
      conv_rhs => rw [remove_expired_loop, if_pos h2]
    · by_cases h2 : t2 - it.2.timestamp > limit * ticksPerSecond
      · rw [remove_expired_loop, if_neg h1]
        conv_lhs => rw [remove_expired_loop, if_pos h2, ih]
        conv_rhs => rw [remove_expired_loop, if_pos h2]
      · rw [remove_expired_loop, if_neg h1]
        conv_lhs => rw [remove_expired_loop, if_neg h2, ih]
        conv_rhs => rw [remove_expired_loop, if_neg h2]

/-! ## Lemmas on the members as declared -/

theorem return_of_result_ill_formed :
    return_well_formed emplace_result_type declared_return_type = false := by
  decide

theorem insert_call_eq_none [DecidableEq Key] (m : ExpiringTemporalUnorderedMap Key T)
    (key : Key) (value : T) (now now_sweep : TimePoint) :
    insert_call m key value now now_sweep = none := by
  simp [insert_call, return_of_result_ill_formed]

theorem emplace_call_eq_none [DecidableEq Key] [Inhabited T]
    (m : ExpiringTemporalUnorderedMap Key T) (key : Key) (value_args : List T)
    (now now_sweep : TimePoint) :
    emplace_call m key value_args now now_sweep = none := by
  cases value_args with
  | nil => simp [emplace_call, return_of_result_ill_formed]
  | cons first others => rfl

/-! ## The container invariant is kept -/

theorem uniqueKeys_mk_map (time_limit_seconds : Int) :
    UniqueKeys (mk_map time_limit_seconds : ExpiringTemporalUnorderedMap Key T) :=
  List.nodup_nil

theorem uniqueKeys_remove_expired_elements (m : ExpiringTemporalUnorderedMap Key T)
    (now : TimePoint) (h : UniqueKeys m) : UniqueKeys (remove_expired_elements m now) :=
  List.Nodup.sublist ((remove_expired_loop_sublist now m.time_limit_ m.elements_).map Prod.fst) h

theorem nodup_umap_emplace [DecidableEq Key] (key : Key) (e : Element T)
    (l : List (Key × Element T)) (h : (l.map Prod.fst).Nodup) :
    ((umap_emplace key e l).1.map Prod.fst).Nodup := by
  unfold umap_emplace
  cases hfind : umap_find key l with
  | some found => exact h
  | none =>
    have hnot := (umap_find_eq_none_iff key l).mp hfind
    simp only [List.map_append, List.map_cons, List.map_nil]
    rw [List.nodup_append]
    refine ⟨h, List.nodup_singleton key, ?_⟩
    intro a ha hb
    rw [List.mem_singleton] at hb
    subst hb
    exact hnot ha

theorem uniqueKeys_insert [DecidableEq Key] (m : ExpiringTemporalUnorderedMap Key T)
    (key : Key) (value : T) (now now_sweep : TimePoint) (h : UniqueKeys m) :
    UniqueKeys (insert m key value now now_sweep).1 :=
  uniqueKeys_remove_expired_elements _ now_sweep (nodup_umap_emplace key _ m.elements_ h)

theorem uniqueKeys_emplace [DecidableEq Key] [Inhabited T]
    (m : ExpiringTemporalUnorderedMap Key T) (key : Key) (now now_sweep : TimePoint)
    (h : UniqueKeys m) : UniqueKeys (emplace m key now now_sweep).1 :=
  uniqueKeys_remove_expired_elements _ now_sweep (nodup_umap_emplace key _ m.elements_ h)

theorem uniqueKeys_erase [DecidableEq Key] (m : ExpiringTemporalUnorderedMap Key T)
    (key : Key) (now_sweep : TimePoint) (h : UniqueKeys m) :
    UniqueKeys (erase m key now_sweep).1 :=
  uniqueKeys_remove_expired_elements _ now_sweep
    (List.Nodup.sublist ((umap_erase_sublist key m.elements_).map Prod.fst) h)

theorem uniqueKeys_operator_index [DecidableEq Key] [Inhabited T]
    (m : ExpiringTemporalUnorderedMap Key T) (key : Key) (now_sweep now : TimePoint)
    (h : UniqueKeys m) : UniqueKeys (operator_index m key now_sweep now).2 := by
  have hswept := uniqueKeys_remove_expired_elements m now_sweep h
  cases hfind : umap_find key (remove_expired_elements m now_sweep).elements_ with
  | some found =>
    simp only [operator_index, hfind]
    exact hswept
  | none =>
    simp only [operator_index, hfind]
    exact nodup_umap_emplace key _ _ hswept

theorem uniqueKeys_assign_through_reference [DecidableEq Key]
    (m : ExpiringTemporalUnorderedMap Key T) (key : Key) (value : T) (h : UniqueKeys m) :
    UniqueKeys (assign_through_reference m key value) := by
  unfold UniqueKeys assign_through_reference
  rw [assign_value_keys]
  exact h

/-! ## The claims -/

/-- C1 (TTL enforcement). With a non-negative time limit, after any of `insert`, `emplace`,
`erase`, `clear_expired_elements` and `operator[]` run with every clock reading equal to `t`,
the time limit is the one before and no stored element has `timestamp + ttl < t`. -/
theorem ttl_enforcement [DecidableEq Key] [Inhabited T]
    (m : ExpiringTemporalUnorderedMap Key T) (op : Operation Key T) (t : TimePoint)
    (httl : 0 ≤ m.time_limit_) :
    (op.run m t).time_limit_ = m.time_limit_ ∧
      ∀ it ∈ (op.run m t).elements_, ¬ (it.2.timestamp + time_limit_ticks m < t) := by
  have key_fact : ∀ (l : List (Key × Element T)) (it : Key × Element T),
      it ∈ remove_expired_loop t m.time_limit_ l →
        ¬ (it.2.timestamp + time_limit_ticks m < t) := by
    intro l it hit
    have h := ((mem_remove_expired_loop t m.time_limit_ l it).mp hit).2
    unfold time_limit_ticks
    linarith
  cases op with
  | insert key value => exact ⟨rfl, fun it hit => key_fact _ it hit⟩
  | emplace key => exact ⟨rfl, fun it hit => key_fact _ it hit⟩
  | erase key => exact ⟨rfl, fun it hit => key_fact _ it hit⟩
  | clear_expired_elements => exact ⟨rfl, fun it hit => key_fact _ it hit⟩
  | operator_index key =>
    simp only [Operation.run, operator_index]
    cases hfind : umap_find key (remove_expired_elements m t).elements_ with
    | some e => exact ⟨rfl, fun it hit => key_fact _ it hit⟩
    | none =>
      refine ⟨rfl, fun it hit => ?_⟩
      simp only [umap_emplace, hfind, List.mem_append, List.mem_singleton] at hit
      rcases hit with hit | hit
      · exact key_fact _ it hit
      · have hnn := time_limit_ticks_nonneg m httl
        subst hit
        show ¬ (t + time_limit_ticks m < t)
        linarith

/-- Witness for C1: `operator[]("a")` at 5 s on the scenario map after both inserts. -/
theorem ttl_enforcement_witness :
    (0 : Int) ≤ scenario_after_b.1.time_limit_ ∧
      ((Operation.operator_index "a").run scenario_after_b.1 5000000000).time_limit_
          = scenario_after_b.1.time_limit_ ∧
      ∀ it ∈ ((Operation.operator_index "a").run scenario_after_b.1 5000000000).elements_,
        ¬ (it.2.timestamp + time_limit_ticks scenario_after_b.1 < 5000000000) :=
  ⟨by decide, ttl_enforcement scenario_after_b.1 (Operation.operator_index "a") 5000000000
    (by decide)⟩

/-- C2 (sweep exactness). `clear_expired_elements()` with reading `now` keeps exactly the
stored pairs whose age `now - timestamp` is at most the time limit, unchanged and in their
order; a stored pair is dropped iff its age strictly exceeds the limit, so a pair whose age
equals the limit stays; the time limit itself is untouched. -/
theorem sweep_exactness (m : ExpiringTemporalUnorderedMap Key T) (now : TimePoint) :
    (clear_expired_elements m now).elements_
        = m.elements_.filter (fun it => decide (now - it.2.timestamp ≤ time_limit_ticks m)) ∧
      (clear_expired_elements m now).time_limit_ = m.time_limit_ ∧
      (∀ it, it ∈ (clear_expired_elements m now).elements_
        ↔ it ∈ m.elements_ ∧ now - it.2.timestamp ≤ time_limit_ticks m) ∧
      (∀ it ∈ m.elements_, it ∉ (clear_expired_elements m now).elements_
        ↔ now - it.2.timestamp > time_limit_ticks m) ∧
      (∀ it ∈ m.elements_, now - it.2.timestamp = time_limit_ticks m →
        it ∈ (clear_expired_elements m now).elements_) := by
  have hmem := mem_remove_expired_loop now m.time_limit_ m.elements_
  refine ⟨remove_expired_loop_eq_filter now m.time_limit_ m.elements_, rfl, hmem, ?_, ?_⟩
  · intro it hit
    show it ∉ remove_expired_loop now m.time_limit_ m.elements_ ↔ _
    rw [hmem it]
    unfold time_limit_ticks
    constructor
    · intro h
      exact not_le.mp (fun hle => h ⟨hit, hle⟩)
    · intro h hc
      exact not_le.mpr h hc.2
  · intro it hit heq
    exact (hmem it).mpr ⟨hit, le_of_eq heq⟩

/-- C5 (indexed access is sweep-then-lookup). On a map with unique keys, with every clock
reading equal to `t`: if `key` is stored with an element alive at `t`, `operator[](key)`
returns its value and leaves the sweep of the map at `t`; if `key` is missing or its element
is stale at `t`, it returns the default value and leaves the sweep of the map at `t` (which
has no pair for `key`) with the pair `key -> (default, t)` added. In every case `key` is
stored afterwards, the returned value is the value stored under it, and that element is
either an element of the map before that is alive at `t` or the fresh `(default, t)`. -/
theorem operator_index_sweep_then_lookup [DecidableEq Key] [Inhabited T]
    (m : ExpiringTemporalUnorderedMap Key T) (key : Key) (t : TimePoint)
    (huniq : UniqueKeys m) :
    (∀ e, lookup m key = some e → Alive m t e →
        operator_index m key t t = (e.value, remove_expired_elements m t)) ∧
      ((lookup m key = none ∨ ∃ e, lookup m key = some e ∧ ¬ Alive m t e) →
        lookup (remove_expired_elements m t) key = none ∧
        operator_index m key t t
          = ((default : T),
              { remove_expired_elements m t with
                elements_ := (remove_expired_elements m t).elements_
                  ++ [(key, { value := (default : T), timestamp := t })] })) ∧
      (∃ e, lookup (operator_index m key t t).2 key = some e ∧
        (operator_index m key t t).1 = e.value ∧
        ((lookup m key = some e ∧ Alive m t e)
          ∨ e = { value := (default : T), timestamp := t })) := by
  have hA : ∀ e, lookup m key = some e → Alive m t e →
      operator_index m key t t = (e.value, remove_expired_elements m t) :=
    fun e he halive => operator_index_of_alive m key t t e he halive
  have hB : (lookup m key = none ∨ ∃ e, lookup m key = some e ∧ ¬ Alive m t e) →
      lookup (remove_expired_elements m t) key = none := by
    intro h
    rcases h with h | ⟨e, he, hstale⟩
    · exact lookup_remove_expired_none m key t h
    · exact lookup_remove_expired_stale m key t e huniq he hstale
  refine ⟨hA, fun h => ⟨hB h, operator_index_of_swept_absent m key t t (hB h)⟩, ?_⟩
  cases hm : lookup m key with
  | none =>
    have hgone := hB (Or.inl hm)
    rw [operator_index_of_swept_absent m key t t hgone]
    exact ⟨_, umap_find_append_self key _ _ hgone, rfl, Or.inr rfl⟩
  | some e =>
    by_cases halive : Alive m t e
    · rw [hA e hm halive]
      exact ⟨e, lookup_remove_expired_alive m key t e hm halive, rfl, Or.inl ⟨rfl, halive⟩⟩
    · have hgone := hB (Or.inr ⟨e, hm, halive⟩)
      rw [operator_index_of_swept_absent m key t t hgone]
      exact ⟨_, umap_find_append_self key _ _ hgone, rfl, Or.inr rfl⟩

/-- Witness for C5: `operator[]("b")` at 3.5 s in the scenario, where `"b"` is stale. -/
theorem operator_index_sweep_then_lookup_witness :
    UniqueKeys scenario_after_clear ∧
      (lookup scenario_after_clear "b" = none ∨
          ∃ e, lookup scenario_after_clear "b" = some e ∧
            ¬ Alive scenario_after_clear 3500000000 e) ∧
      operator_index scenario_after_clear "b" 3500000000 3500000000
        = ((default : Int),
            { remove_expired_elements scenario_after_clear 3500000000 with
              elements_ := (remove_expired_elements scenario_after_clear 3500000000).elements_
                ++ [("b", { value := (default : Int), timestamp := 3500000000 })] }) :=
  have hstale : lookup scenario_after_clear "b" = none ∨
      ∃ e, lookup scenario_after_clear "b" = some e ∧
        ¬ Alive scenario_after_clear 3500000000 e :=
    Or.inr ⟨{ value := 2, timestamp := 1000000000 }, by decide, by decide⟩
  ⟨by decide, hstale,
    ((operator_index_sweep_then_lookup scenario_after_clear "b" 3500000000
      (by decide)).2.1 hstale).2⟩

/-- C6 (upsert via indexed access). When no pair is stored under `key`, `operator[](key)` at
`t1` returns the default value and stores `key -> (default, t1)`; a following
`operator[](key)` at `t2` with `t2 - t1 ≤ ttl` returns the value of that same element and
leaves its timestamp `t1`: the default value when nothing was written, and `v` when `v` was
assigned through the first reference. -/
theorem upsert_via_operator_index [DecidableEq Key] [Inhabited T]
    (m : ExpiringTemporalUnorderedMap Key T) (key : Key) (v : T) (t1 t2 : TimePoint)
    (habsent : lookup m key = none)
    (hage : t2 - t1 ≤ time_limit_ticks m) :
    (operator_index m key t1 t1).1 = (default : T) ∧
      lookup (operator_index m key t1 t1).2 key
        = some { value := (default : T), timestamp := t1 } ∧
      (operator_index (operator_index m key t1 t1).2 key t2 t2).1 = (default : T) ∧
      lookup (operator_index (operator_index m key t1 t1).2 key t2 t2).2 key
        = some { value := (default : T), timestamp := t1 } ∧
      (operator_index (assign_through_reference (operator_index m key t1 t1).2 key v)
        key t2 t2).1 = v ∧
      lookup (operator_index (assign_through_reference (operator_index m key t1 t1).2 key v)
        key t2 t2).2 key = some { value := v, timestamp := t1 } := by
  have hgone := lookup_remove_expired_none m key t1 habsent
  have hfirst := operator_index_of_swept_absent m key t1 t1 hgone
  have hstored : lookup (operator_index m key t1 t1).2 key
      = some { value := (default : T), timestamp := t1 } := by
    rw [hfirst]
    exact umap_find_append_self key _ _ hgone
  have hlimit : time_limit_ticks (operator_index m key t1 t1).2 = time_limit_ticks m := by
    rw [hfirst]; rfl
  have hwritten : lookup (assign_through_reference (operator_index m key t1 t1).2 key v) key
      = some { value := v, timestamp := t1 } :=
    umap_find_assign_value key v _ _ hstored
  have hsecond := operator_index_of_alive (operator_index m key t1 t1).2 key t2 t2 _ hstored
    (by rw [hlimit]; exact hage)
  have hsecond_w := operator_index_of_alive
    (assign_through_reference (operator_index m key t1 t1).2 key v) key t2 t2 _ hwritten
    (by
      have : time_limit_ticks (assign_through_reference (operator_index m key t1 t1).2 key v)
          = time_limit_ticks m := by rw [← hlimit]; rfl
      rw [this]; exact hage)
  refine ⟨by rw [hfirst], hstored, by rw [hsecond], ?_, by rw [hsecond_w], ?_⟩
  · rw [hsecond]
    exact lookup_remove_expired_alive _ key t2 _ hstored (by rw [hlimit]; exact hage)
  · rw [hsecond_w]
    refine lookup_remove_expired_alive _ key t2 _ hwritten ?_
    have : time_limit_ticks (assign_through_reference (operator_index m key t1 t1).2 key v)
        = time_limit_ticks m := by rw [← hlimit]; rfl
    rw [this]; exact hage

/-- Witness for C6: `operator[]("c")` at 1 s on the scenario map, `9` written through the
reference, and `operator[]("c")` again at 3 s. -/
theorem upsert_via_operator_index_witness :
    lookup scenario_after_b.1 "c" = none ∧
      (3000000000 : TimePoint) - 1000000000 ≤ time_limit_ticks scenario_after_b.1 ∧
      lookup (operator_index scenario_after_b.1 "c" 1000000000 1000000000).2 "c"
        = some { value := 0, timestamp := 1000000000 } ∧
      (operator_index (assign_through_reference
        (operator_index scenario_after_b.1 "c" 1000000000 1000000000).2 "c" 9)
        "c" 3000000000 3000000000).1 = 9 :=
  have h := upsert_via_operator_index scenario_after_b.1 "c" 9 1000000000 3000000000
    (by decide) (by decide)
  ⟨by decide, by decide, h.2.1, h.2.2.2.2.1⟩

/-- C7 (removal of a key). On a map with unique keys, `erase(key)` returns 1 exactly when a
pair is physically stored under `key` just before the call (stale or not) and 0 exactly when
none is; in both cases no pair is stored under `key` afterwards. -/
theorem erase_returns_presence [DecidableEq Key]
    (m : ExpiringTemporalUnorderedMap Key T) (key : Key) (t : TimePoint)
    (huniq : UniqueKeys m) :
    ((erase m key t).2 = 1 ↔ ∃ e, lookup m key = some e) ∧
      ((erase m key t).2 = 0 ↔ lookup m key = none) ∧
      lookup (erase m key t).1 key = none := by
  have hgone : lookup (erase m key t).1 key = none :=
    umap_find_remove_expired_none t m.time_limit_ key _
      (umap_find_erase_self key m.elements_ huniq)
  cases hm : lookup m key with
  | none =>
    have h0 : (erase m key t).2 = 0 := by
      show (umap_erase key m.elements_).2 = 0
      rw [umap_erase_of_absent key m.elements_ hm]
    refine ⟨?_, ?_, hgone⟩
    · rw [h0]; simp
    · rw [h0]; simp
  | some e =>
    have h1 : (erase m key t).2 = 1 := umap_erase_of_present key e m.elements_ hm
    refine ⟨?_, ?_, hgone⟩
    · rw [h1]; simp
    · rw [h1]; simp

/-- Witness for C7: `erase("a")` at 5 s on the scenario map, where `"a"` is stale but still
stored. -/
theorem erase_returns_presence_witness :
    UniqueKeys scenario_after_b.1 ∧
      ((erase scenario_after_b.1 "a" 5000000000).2 = 1
        ↔ ∃ e, lookup scenario_after_b.1 "a" = some e) ∧
      ((erase scenario_after_b.1 "a" 5000000000).2 = 0
        ↔ lookup scenario_after_b.1 "a" = none) ∧
      lookup (erase scenario_after_b.1 "a" 5000000000).1 "a" = none :=
  ⟨by decide, erase_returns_presence scenario_after_b.1 "a" 5000000000 (by decide)⟩

/-- C8 as stated fails: on a map holding a stale element under another key, `erase` of an
absent key returns 0 but the map afterwards differs from the map before. -/
theorem erase_absent_changes_map :
    lookup stale_other_key "k" = none ∧
      (erase stale_other_key "k" 5000000000).2 = 0 ∧
      (erase stale_other_key "k" 5000000000).1 ≠ stale_other_key := by
  decide

/-- C8 (amended). When no pair is stored under `key`, `erase(key)` returns 0 and the map
afterwards is the sweep of the map before at the call's clock reading; it is equal to the
map before whenever every stored element is alive at that reading. -/
theorem erase_absent_key [DecidableEq Key]
    (m : ExpiringTemporalUnorderedMap Key T) (key : Key) (t : TimePoint)
    (habsent : lookup m key = none) :
    (erase m key t).2 = 0 ∧
      (erase m key t).1 = remove_expired_elements m t ∧
      ((∀ it ∈ m.elements_, Alive m t it.2) → (erase m key t).1 = m) := by
  have herase : erase m key t = (remove_expired_elements m t, 0) := by
    simp only [erase, umap_erase_of_absent key m.elements_ habsent]
  rw [herase]
  refine ⟨rfl, rfl, fun hall => ?_⟩
  show ({ m with elements_ := remove_expired_loop t m.time_limit_ m.elements_ } :
    ExpiringTemporalUnorderedMap Key T) = m
  rw [remove_expired_loop_of_all_alive t m.time_limit_ m.elements_ hall]

/-- Witness for C8 (amended): `erase("k")` at 1 s on the map holding only `"j"`, which is
still alive then. -/
theorem erase_absent_key_witness :
    lookup stale_other_key "k" = none ∧
      (erase stale_other_key "k" 1000000000).2 = 0 ∧
      (erase stale_other_key "k" 1000000000).1
        = remove_expired_elements stale_other_key 1000000000 ∧
      ((∀ it ∈ stale_other_key.elements_, Alive stale_other_key 1000000000 it.2) →
        (erase stale_other_key "k" 1000000000).1 = stale_other_key) :=
  ⟨by decide, erase_absent_key stale_other_key "k" 1000000000 (by decide)⟩

/-- C9 (idempotent eviction). Running `clear_expired_elements()` twice with the same clock
reading leaves the same map as running it once. -/
theorem clear_expired_elements_idempotent (m : ExpiringTemporalUnorderedMap Key T)
    (t : TimePoint) :
    clear_expired_elements (clear_expired_elements m t) t = clear_expired_elements m t := by
  show ({ elements_ := remove_expired_loop t m.time_limit_
            (remove_expired_loop t m.time_limit_ m.elements_),
          time_limit_ := m.time_limit_ } : ExpiringTemporalUnorderedMap Key T)
      = { elements_ := remove_expired_loop t m.time_limit_ m.elements_,
          time_limit_ := m.time_limit_ }
  rw [remove_expired_loop_of_all_alive t m.time_limit_
    (remove_expired_loop t m.time_limit_ m.elements_)
    (fun it hit => ((mem_remove_expired_loop t m.time_limit_ m.elements_ it).mp hit).2)]

/-- C12 (zero time limit). With a time limit of 0, a sweep at reading `t` removes every
stored pair stamped strictly before `t` and keeps every stored pair stamped exactly `t`;
after the sweep every stored pair has `timestamp ≥ t`. -/
theorem zero_time_limit (m : ExpiringTemporalUnorderedMap Key T) (t : TimePoint)
    (hzero : m.time_limit_ = 0) :
    (∀ it ∈ m.elements_, it.2.timestamp < t → it ∉ (clear_expired_elements m t).elements_) ∧
      (∀ it ∈ m.elements_, it.2.timestamp = t → it ∈ (clear_expired_elements m t).elements_) ∧
      (∀ it ∈ (clear_expired_elements m t).elements_, t ≤ it.2.timestamp) := by
  have hmem : ∀ it, it ∈ (clear_expired_elements m t).elements_
      ↔ it ∈ m.elements_ ∧ t - it.2.timestamp ≤ 0 := by
    intro it
    have h : it ∈ (clear_expired_elements m t).elements_
        ↔ it ∈ m.elements_ ∧ t - it.2.timestamp ≤ m.time_limit_ * ticksPerSecond :=
      mem_remove_expired_loop t m.time_limit_ m.elements_ it
    rw [h, hzero, zero_mul]
  refine ⟨fun it _ hlt hin => ?_, fun it hit heq => ?_, fun it hin => ?_⟩
  · have := ((hmem it).mp hin).2
    linarith
  · exact (hmem it).mpr ⟨hit, by rw [heq]; linarith⟩
  · have := ((hmem it).mp hin).2
    linarith

/-- Witness for C12: a sweep at 7 s of the map with time limit 0 holding `"x"` stamped 5 s
and `"y"` stamped 7 s. -/
theorem zero_time_limit_witness :
    zero_limit_map.time_limit_ = 0 ∧
      (clear_expired_elements zero_limit_map 7000000000).elements_
        = [("y", { value := 2, timestamp := 7000000000 })] ∧
      (∀ it ∈ (clear_expired_elements zero_limit_map 7000000000).elements_,
        (7000000000 : TimePoint) ≤ it.2.timestamp) :=
  ⟨by decide, by decide, (zero_time_limit zero_limit_map 7000000000 (by decide)).2.2⟩

/-- C14 (timestamps are immutable, access does not extend lifetime). If `key` is stored
with element `e` and `e` is alive at `t`, then after any of `insert`, `emplace`, `erase` of
another key, `clear_expired_elements` and `operator[]` run at `t`, `key` is still stored with
the very same element `e`, so with the same timestamp. In particular `operator[](key)`
leaves `e` in place, and `insert(key, v)` is blocked and leaves `e` in place. -/
theorem timestamps_immutable [DecidableEq Key] [Inhabited T]
    (m : ExpiringTemporalUnorderedMap Key T) (op : Operation Key T) (t : TimePoint)
    (key : Key) (e : Element T)
    (hstored : lookup m key = some e) (halive : Alive m t e)
    (htarget : op ≠ Operation.erase key) :
    lookup (op.run m t) key = some e ∧
      lookup (operator_index m key t t).2 key = some e ∧
      (∀ v : T, (insert m key v t t).2 = false ∧ lookup (insert m key v t t).1 key = some e) := by
  have hkeep : ∀ l : List (Key × Element T), umap_find key l = some e →
      umap_find key (remove_expired_loop t m.time_limit_ l) = some e :=
    fun l hl => umap_find_remove_expired_alive t m.time_limit_ key e l hl halive
  have hindex : ∀ other : Key, lookup (operator_index m other t t).2 key = some e := by
    intro other
    have hswept : umap_find key (remove_expired_elements m t).elements_ = some e :=
      hkeep m.elements_ hstored
    cases hfind : umap_find other (remove_expired_elements m t).elements_ with
    | some found =>
      simp only [operator_index, hfind]
      exact hswept
    | none =>
      simp only [operator_index, hfind]
      exact umap_find_emplace_of_present other key _ e _ hswept
  refine ⟨?_, hindex key, fun v => ?_⟩
  · cases op with
    | insert other value =>
      exact hkeep _ (umap_find_emplace_of_present other key _ e m.elements_ hstored)
    | emplace other =>
      exact hkeep _ (umap_find_emplace_of_present other key _ e m.elements_ hstored)
    | erase other =>
      have hne : other ≠ key := fun heq => htarget (by rw [heq])
      refine hkeep _ ?_
      rw [umap_find_erase_other other key m.elements_ hne]
      exact hstored
    | clear_expired_elements => exact hkeep _ hstored
    | operator_index other => exact hindex other
  · rw [insert_of_present m key v t t e hstored]
    exact ⟨rfl, hkeep _ hstored⟩

/-- Witness for C14: `operator[]("b")` at 2.5 s on the scenario map, where `"b"` was stamped
at 1 s. -/
theorem timestamps_immutable_witness :
    lookup scenario_after_b.1 "b" = some { value := 2, timestamp := 1000000000 } ∧
      Alive scenario_after_b.1 2500000000 { value := 2, timestamp := 1000000000 } ∧
      lookup ((Operation.operator_index "b").run scenario_after_b.1 2500000000) "b"
        = some { value := 2, timestamp := 1000000000 } :=
  ⟨by decide, by decide,
    (timestamps_immutable scenario_after_b.1 (Operation.operator_index "b") 2500000000 "b"
      { value := 2, timestamp := 1000000000 } (by decide) (by decide)
      (fun h => Operation.noConfusion h)).1⟩

/-- C16 (frame on other keys). For `insert(key, value)`, `emplace(key)`, `erase(key)` and
`operator[](key)` run at `t`, and every key `other` different from `key`, what is stored
under `other` afterwards is exactly what the sweep of the map at `t` stores under `other`:
the same element, or nothing. -/
theorem frame_on_other_keys [DecidableEq Key] [Inhabited T]
    (m : ExpiringTemporalUnorderedMap Key T) (key other : Key) (value : T) (t : TimePoint)
    (hne : other ≠ key) :
    lookup (insert m key value t t).1 other = lookup (remove_expired_elements m t) other ∧
      lookup (emplace m key t t).1 other = lookup (remove_expired_elements m t) other ∧
      lookup (erase m key t).1 other = lookup (remove_expired_elements m t) other ∧
      lookup (operator_index m key t t).2 other
        = lookup (remove_expired_elements m t) other := by
  have hkey : key ≠ other := fun h => hne h.symm
  refine ⟨umap_find_sweep_emplace_other t m.time_limit_ key other _ m.elements_ hkey,
    umap_find_sweep_emplace_other t m.time_limit_ key other _ m.elements_ hkey,
    umap_find_sweep_erase_other t m.time_limit_ key other m.elements_ hkey, ?_⟩
  cases hfind : umap_find key (remove_expired_elements m t).elements_ with
  | some found => simp only [operator_index, hfind]
  | none =>
    simp only [operator_index, hfind, umap_emplace]
    exact umap_find_append_other key other _ _ hkey

/-- Witness for C16: `erase("a")` at 2.5 s on the scenario map, observed at key `"b"`. -/
theorem frame_on_other_keys_witness :
    "b" ≠ "a" ∧
      lookup (erase scenario_after_b.1 "a" 2500000000).1 "b"
        = lookup (remove_expired_elements scenario_after_b.1 2500000000) "b" :=
  ⟨by decide,
    (frame_on_other_keys scenario_after_b.1 "a" "b" 0 2500000000 (by decide)).2.2.1⟩

/-- C17 (sweeps compose along a monotonic clock). For readings `t1 ≤ t2` and stored
timestamps of any kind, a sweep at `t1` followed by a sweep at `t2` leaves the same map as
one sweep at `t2`; and a sweep at any reading leaves a sub-list of the stored pairs, each
unchanged, and the same time limit. -/
theorem sweeps_compose (m : ExpiringTemporalUnorderedMap Key T) (t1 t2 : TimePoint)
    (hclock : t1 ≤ t2) :
    clear_expired_elements (clear_expired_elements m t1) t2 = clear_expired_elements m t2 ∧
      (∀ t : TimePoint, (clear_expired_elements m t).elements_.Sublist m.elements_ ∧
        (clear_expired_elements m t).time_limit_ = m.time_limit_) := by
  refine ⟨?_, fun t => ⟨remove_expired_loop_sublist t m.time_limit_ m.elements_, rfl⟩⟩
  show ({ elements_ := remove_expired_loop t2 m.time_limit_
            (remove_expired_loop t1 m.time_limit_ m.elements_),
          time_limit_ := m.time_limit_ } : ExpiringTemporalUnorderedMap Key T)
      = { elements_ := remove_expired_loop t2 m.time_limit_ m.elements_,
          time_limit_ := m.time_limit_ }
  rw [remove_expired_loop_sweep_twice t1 t2 m.time_limit_ m.elements_ hclock]

/-- Witness for C17: sweeps of the scenario map at 2.5 s and then 3.5 s. -/
theorem sweeps_compose_witness :
    (2500000000 : TimePoint) ≤ 3500000000 ∧
      clear_expired_elements (clear_expired_elements scenario_after_b.1 2500000000) 3500000000
        = clear_expired_elements scenario_after_b.1 3500000000 :=
  ⟨by decide, (sweeps_compose scenario_after_b.1 2500000000 3500000000 (by decide)).1⟩

/-- C3 (insert of an absent key), evaluated on the code: on the map `{a -> (1, 0 s)}` with a
time limit of 2 s, where no pair is stored under `"b"`, the call `insert("b", 2)` at 1 s
yields no result at all, hence no `inserted = true`: the `return result;` of `insert` is
ill-formed. -/
theorem insert_absent_key_no_result :
    lookup scenario_a_via_index "b" = none ∧
      insert_call scenario_a_via_index "b" 2 1000000000 1000000000 = none :=
  ⟨by decide, insert_call_eq_none scenario_a_via_index "b" 2 1000000000 1000000000⟩

/-- C4 (insert-if-absent), evaluated on the code: on the empty map with a time limit of 2 s
the first call `insert("a", 1)` at 0 s yields no result, and on the map `{a -> (1, 0 s)}`
the second call `insert("a", 5)` at 2 s yields no result either, hence no
`inserted = false`. -/
theorem insert_if_absent_no_result :
    insert_call scenario_start "a" 1 0 0 = none ∧
      lookup scenario_a_via_index "a" = some { value := 1, timestamp := 0 } ∧
      insert_call scenario_a_via_index "a" 5 2000000000 2000000000 = none :=
  ⟨insert_call_eq_none scenario_start "a" 1 0 0, by decide,
    insert_call_eq_none scenario_a_via_index "a" 5 2000000000 2000000000⟩

/-- C10 (concrete scenario), evaluated on the code: with a time limit of 2 s the two calls
`insert("a", 1)` at 0 s and `insert("b", 2)` at 1 s yield no result, so the scenario stops
at its first step. From the map `{a -> (1, 0 s), b -> (2, 1 s)}` built through `operator[]`
instead, `clear_expired_elements()` at 2.5 s leaves exactly `b -> 2` and `operator[]("b")`
at 3.5 s returns the default value and leaves exactly `b -> default` stamped 3.5 s. -/
theorem concrete_scenario_no_result :
    insert_call scenario_start "a" 1 0 0 = none ∧
      insert_call scenario_a_via_index "b" 2 1000000000 1000000000 = none ∧
      scenario_b_via_index.elements_
        = [("a", { value := 1, timestamp := 0 }),
           ("b", { value := 2, timestamp := 1000000000 })] ∧
      (clear_expired_elements scenario_b_via_index 2500000000).elements_
        = [("b", { value := 2, timestamp := 1000000000 })] ∧
      operator_index (clear_expired_elements scenario_b_via_index 2500000000) "b"
          3500000000 3500000000
        = ((default : Int),
            { elements_ := [("b", { value := (default : Int), timestamp := 3500000000 })],
              time_limit_ := 2 }) := by
  decide

/-- C11 (emplace stores a default value), evaluated on the code: on the empty map with a
time limit of 2 s, `emplace("k")` at 0 s yields no result (its `return result;` is
ill-formed), and `emplace("k", 7)` yields none either (the pair cannot be built from a key,
a value and an element), so no flag is returned and no value is stored or discarded. -/
theorem emplace_no_result :
    emplace_call scenario_start "k" [] 0 0 = none ∧
      emplace_call scenario_start "k" [7] 0 0 = none :=
  ⟨emplace_call_eq_none scenario_start "k" [] 0 0,
    emplace_call_eq_none scenario_start "k" [7] 0 0⟩

/-- C13 (insert onto a stale key), evaluated on the code: the map `{k -> (5, 0 s)}` with a
time limit of 1 s is what `m["k"] = 5` at 0 s builds, and `"k"` is stale at 5 s. There the
call `insert("k", 9)` yields no result, hence no `inserted = false` and no loss of the key,
while `operator[]("k")` returns the default value and leaves `"k"` stored with the fresh
element `(default, 5 s)`. -/
theorem insert_onto_stale_key_no_result :
    stale_entry_map
        = assign_through_reference
            (operator_index (mk_map 1 : ExpiringTemporalUnorderedMap String Int) "k" 0 0).2
            "k" 5 ∧
      ¬ Alive stale_entry_map 5000000000 { value := 5, timestamp := 0 } ∧
      insert_call stale_entry_map "k" 9 5000000000 5000000000 = none ∧
      (operator_index stale_entry_map "k" 5000000000 5000000000).1 = (default : Int) ∧
      lookup (operator_index stale_entry_map "k" 5000000000 5000000000).2 "k"
        = some { value := (default : Int), timestamp := 5000000000 } := by
  decide

/-- C15 (negative time limit), evaluated on the code: the constructor takes -1 s; on the map
`{a -> (0, 1 s)}` that `m["a"]` at 1 s builds, the calls `insert("b", 1)` and `emplace("b")`
at 2 s yield no result, hence no `inserted = true` and no map afterwards, while `erase("b")`
and `clear_expired_elements()` at 2 s leave the empty map and `operator[]("b")` at 2 s
leaves exactly `b -> (default, 2 s)`. -/
theorem negative_time_limit_no_result :
    negative_limit_start.time_limit_ = -1 ∧ negative_limit_start.elements_ = [] ∧
      negative_limit_after_index.elements_
        = [("a", { value := (default : Int), timestamp := 1000000000 })] ∧
      insert_call negative_limit_after_index "b" 1 2000000000 2000000000 = none ∧
      emplace_call negative_limit_after_index "b" [] 2000000000 2000000000 = none ∧
      (erase negative_limit_after_index "b" 2000000000).1.elements_ = [] ∧
      (clear_expired_elements negative_limit_after_index 2000000000).elements_ = [] ∧
      (operator_index negative_limit_after_index "b" 2000000000 2000000000).2.elements_
        = [("b", { value := (default : Int), timestamp := 2000000000 })] := by
  decide

end ExpiringTemporalUnorderedMap
